import Mathlib

/-!
Verification of the totalrecall multiplexing proxy (tools/tls-proxy/main.go)
and the event producer's environment filter (tools/precmd-hook/env_config.go).

Shallow embedding conventions:
* A Go string / byte slice is modelled as `Str := List Char` (the proxy treats
  event bytes as opaque text).
* `json.Unmarshal` into `map[string]interface{}` is an external library
  function; the embedding is parameterised by `parse : Str → Option Obj`,
  where `Obj` is the decoded object with values already stringified the way
  `fmt.Sprintf "%v"` would print them (the only use the proxy makes of them).
  A failed `Unmarshal` leaves the Go map at its zero value `nil`, modelled by
  `(parse data).getD []`.
* I/O outcomes that depend on the network (liveness probes, dials, writes and
  their deadlines) are oracle parameters (`probe`, `dial`, `writeOk`, …).
* Side effects on sockets are reified in an `Effect` trace: closing a
  connection and (successfully) writing a record to a connection.
* Go `int`/`int64` counters are modelled as `Int`; they are nowhere near
  overflow in any claim, so no `% 2^w` wrapping is applied.
* Locks and goroutine interleaving are out of scope: each exported operation
  is modelled as one atomic state transition, matching the lock discipline of
  the source.
-/

namespace TotalRecall

abbrev Str := List Char

/-- Decoded structured object: field name to `%v`-stringified value. -/
abbrev Obj := List (Str × Str)

/-- Characters accepted by Go's `unicode.IsSpace` (`strings.TrimSpace`,
`strings.Fields` use it): ASCII spacing characters plus NEL, NBSP and the
Unicode `Zs` separators. -/
def goIsSpace (c : Char) : Bool :=
  [' ', '\t', '\n', '\x0B', '\x0C', '\r', '\x85', '\xA0', ' ',
   ' ', ' ', ' ', ' ', ' ', ' ', ' ',
   ' ', ' ', ' ', ' ', ' ', ' ', ' ',
   ' ', '　'].contains c

/-- Model of Go `strings.TrimSpace`. -/
def trimSpace (s : Str) : Str :=
  ((s.dropWhile goIsSpace).reverse.dropWhile goIsSpace).reverse

/-- Model of Go `strings.Fields`: substrings separated by runs of
whitespace. -/
def fields : Str → List Str
  | [] => []
  | c :: rest =>
    if goIsSpace c then fields rest
    else ((c :: rest).takeWhile (fun d => !goIsSpace d)) ::
      fields (rest.dropWhile (fun d => !goIsSpace d))
termination_by s => s.length
decreasing_by
  · simp
  · exact Nat.lt_succ_of_le ((List.dropWhile_sublist _).length_le)

/-- Observable side effects on sockets. -/
inductive Effect where
  | closeConn (c : Nat)
  | send (c : Nat) (data : Str)
deriving DecidableEq, Repr

/-- One registered subscriber: caller-supplied id, its socket (identified by a
number; the `bufio.Writer` wrapper is invisible at this level) and its
field-equality filter (a Go `map[string]string`, modelled as an association
list with distinct keys). -/
structure Subscriber where
  id : Str
  conn : Nat
  filter : List (Str × Str)
deriving DecidableEq, Repr

/-- The hub state: subscriber map (association list keyed by `id`; a Go map
holds at most one entry per id) plus the two `int64` counters. -/
structure PubSubHub where
  subscribers : List Subscriber
  totalEvents : Int
  totalSubs : Int
deriving DecidableEq, Repr

/-- Model of `NewPubSubHub`. -/
def NewPubSubHub : PubSubHub := ⟨[], 0, 0⟩

/-- Map assignment `hub.subscribers[id] = s`: replace the entry holding the
same id if present, otherwise add the entry. -/
def hubInsert (s : Subscriber) (l : List Subscriber) : List Subscriber :=
  if l.any (fun t => t.id == s.id) then
    l.map (fun t => if t.id == s.id then s else t)
  else l ++ [s]

/-- Model of `PubSubHub.Subscribe`: close the prior sink of an existing
subscriber with the same id, then store the new subscriber and bump
`totalSubs`. -/
def Subscribe (id : Str) (conn : Nat) (filter : List (Str × Str))
    (hub : PubSubHub) : PubSubHub × List Effect :=
  let closeEffs := match hub.subscribers.find? (fun s => s.id == id) with
    | some existing => [Effect.closeConn existing.conn]
    | none => []
  ({ hub with
      subscribers := hubInsert ⟨id, conn, filter⟩ hub.subscribers,
      totalSubs := hub.totalSubs + 1 }, closeEffs)

/-- Model of `PubSubHub.Unsubscribe`: when the id is registered, close its
sink and delete the entry; otherwise do nothing. -/
def Unsubscribe (id : Str) (hub : PubSubHub) : PubSubHub × List Effect :=
  match hub.subscribers.find? (fun s => s.id == id) with
  | some subscriber =>
    ({ hub with subscribers := hub.subscribers.filter (fun t => !(t.id == id)) },
     [Effect.closeConn subscriber.conn])
  | none => (hub, [])

/-- Model of `PubSubHub.matchesFilter`: an empty filter matches everything;
otherwise every filter key must be present in the event with the exact
stringified value. -/
def matchesFilter (event : Obj) (filter : List (Str × Str)) : Bool :=
  if filter.isEmpty then true
  else filter.all (fun kv =>
    match event.find? (fun e => e.1 == kv.1) with
    | some e => e.2 == kv.2
    | none => false)

/-- Dead-subscriber cleanup loop at the end of `Publish`: unsubscribe each
collected id in order, accumulating the close effects. -/
def cleanupFold (ids : List Str) (acc : PubSubHub × List Effect) :
    PubSubHub × List Effect :=
  ids.foldl (fun a i => let r := Unsubscribe i a.1; (r.1, a.2 ++ r.2)) acc

/-- Model of `PubSubHub.Publish`. With no subscribers it returns at once
(before the counter update). Otherwise the bytes are parsed best-effort (a
failed `json.Unmarshal` leaves the zero-value `nil` map, here `[]`), every
subscriber whose filter matches is written to under a 100 ms deadline
(`writeOk` tells whether that write succeeded), failed subscribers are
unsubscribed after the loop, and `totalEvents` is incremented. -/
def Publish (parse : Str → Option Obj) (writeOk : Nat → Bool) (eventData : Str)
    (hub : PubSubHub) : PubSubHub × List Effect :=
  if hub.subscribers.isEmpty then (hub, [])
  else
    let event := (parse eventData).getD []
    let deliver := hub.subscribers.filter (fun s => matchesFilter event s.filter)
    let sendEffs := (deliver.filter (fun s => writeOk s.conn)).map
      (fun s => Effect.send s.conn eventData)
    let deadSubs := (deliver.filter (fun s => !writeOk s.conn)).map (fun s => s.id)
    let cleaned := cleanupFold deadSubs (hub, [])
    ({ cleaned.1 with totalEvents := cleaned.1.totalEvents + 1 },
     sendEffs ++ cleaned.2)

/-! ### Outbound connection pool (main.go lines 152-224) -/

/-- The pool: `connections` is the buffered channel of idle handles (a FIFO
of capacity `poolSize`; receive pops the front, send appends at the back),
`activeConns` the live count, plus the two counters. TLS configuration and
the mutex carry no behaviour at this level. Connection handles are numbers. -/
structure ConnectionPool where
  connections : List Nat
  targetAddr : Str
  poolSize : Nat
  activeConns : Int
  totalSent : Int
  totalErrors : Int
deriving DecidableEq, Repr

/-- Model of `NewConnectionPool`. -/
def NewConnectionPool (targetAddr : Str) (poolSize : Nat) : ConnectionPool :=
  { connections := [], targetAddr := targetAddr, poolSize := poolSize,
    activeConns := 0, totalSent := 0, totalErrors := 0 }

/-- Dial branch of `getConnection`: `tls.DialWithDialer` either yields a fresh
handle (`dial = some c`, live count incremented) or fails (`totalErrors`
incremented, no handle). -/
def dialNewConnection (dial : Option Nat) (pool : ConnectionPool)
    (effs : List Effect) : Option Nat × ConnectionPool × List Effect :=
  match dial with
  | some c => (some c, { pool with activeConns := pool.activeConns + 1 }, effs)
  | none => (none, { pool with totalErrors := pool.totalErrors + 1 }, effs)

/-- Model of `ConnectionPool.getConnection`: pop an idle handle if one is
buffered and probe it with a zero-length write under a 100 ms deadline
(outcome `probe`); a failed probe closes the handle and decrements the live
count before falling through to the dial path. An empty buffer goes straight
to the dial path. -/
def getConnection (probe : Nat → Bool) (dial : Option Nat)
    (pool : ConnectionPool) : Option Nat × ConnectionPool × List Effect :=
  match pool.connections with
  | conn :: rest =>
    if probe conn then (some conn, { pool with connections := rest }, [])
    else
      dialNewConnection dial
        { pool with connections := rest, activeConns := pool.activeConns - 1 }
        [Effect.closeConn conn]
  | [] => dialNewConnection dial pool []

/-- Model of `ConnectionPool.returnConnection`: the non-blocking send into the
buffered channel succeeds exactly when the buffer holds fewer than `poolSize`
handles; otherwise the handle is closed and the live count decremented. -/
def returnConnection (conn : Nat) (pool : ConnectionPool) :
    ConnectionPool × List Effect :=
  if pool.connections.length < pool.poolSize then
    ({ pool with connections := pool.connections ++ [conn] }, [])
  else
    ({ pool with activeConns := pool.activeConns - 1 }, [Effect.closeConn conn])

/-! ### Protocol classifier and handlers (main.go lines 256-318, 438-517) -/

/-- Proxy state touched by the ingestion path: the fluent-bit pool and the
hub. The Elasticsearch HTTP client keeps no state that the claims mention. -/
structure ProxyState where
  fluentbitPool : ConnectionPool
  pubsub : PubSubHub
deriving DecidableEq, Repr

/-- Model of `isHTTPRequest`: the first line starts with one of seven
verb-plus-space literals. -/
def httpMethods : List Str :=
  ["GET ", "POST ", "PUT ", "DELETE ", "HEAD ", "OPTIONS ", "PATCH "].map
    String.toList

def isHTTPRequest (line : Str) : Bool :=
  httpMethods.any (fun method => method.isPrefixOf line)

/-- Dispatch target chosen by `handleClient`'s switch, together with the data
each handler receives. -/
inductive Route where
  | requestProxy (firstLine : Str)
  | subscriber (subscriberID : Str) (filterStr : Str)
  | ingestion (firstEvent : Str)
deriving DecidableEq, Repr

/-- The classifier: `handleClient` trims the first line and switches on it.
`SUBSCRIBE` lines carry `id [k=v,…]` fields (defaults: id `anonymous`, empty
filter string); any other non-HTTP line is the first ingestion event. -/
def classify (rawFirstLine : Str) : Route :=
  let firstLine := trimSpace rawFirstLine
  if isHTTPRequest firstLine then .requestProxy firstLine
  else if "SUBSCRIBE".toList.isPrefixOf firstLine then
    let parts := fields firstLine
    let subscriberID :=
      if parts.length ≥ 2 then (parts.get? 1).getD [] else "anonymous".toList
    let filterStr :=
      if parts.length ≥ 3 then List.intercalate [' '] (parts.drop 2) else []
    .subscriber subscriberID filterStr
  else .ingestion firstLine

/-- Go's default `bufio.Reader` size used by `bufio.NewReader(clientConn)`. -/
def bufioReaderDefaultBufSize : Nat := 4096

/-- Model of `reader.ReadString '\n'` on the connection's byte stream: the
prefix up to and including the first newline, plus the unread rest.  A stream
that ends before any newline yields a non-nil error (`none` here).
`bufio.Reader.ReadString` accumulates full buffers until the delimiter, so
the result does not depend on the 4096-byte buffer size. -/
def readStringNewline : Str → Option (Str × Str)
  | [] => none
  | c :: rest =>
    if c = '\n' then some ([c], rest)
    else (readStringNewline rest).map (fun lr => (c :: lr.1, lr.2))

/-- Outcome of the first-line phase of `handleClient`. -/
inductive FirstLineOutcome where
  | closedNoDispatch
  | dispatched (r : Route)
deriving DecidableEq, Repr

/-- First-line phase of `handleClient`: a read error closes the connection
without dispatching; otherwise the trimmed line is classified and the
connection belongs to that handler. -/
def handleClientFirstLine (input : Str) : FirstLineOutcome :=
  match readStringNewline input with
  | none => .closedNoDispatch
  | some (line, _) => .dispatched (classify line)

/-- Model of `processFluentbitEvent`. Oracles: `probe`/`dial` feed the pool
acquire, `writeOk` is the outcome of the 5 s-deadline forward write, and
`subWriteOk` the per-subscriber publish writes. Returns whether the record
was forwarded, the new state and the effect trace (the successful forward
write appears as a `send` to the pool handle). -/
def processFluentbitEvent (parse : Str → Option Obj) (probe : Nat → Bool)
    (dial : Option Nat) (writeOk : Bool) (subWriteOk : Nat → Bool)
    (data : Str) (st : ProxyState) : Bool × ProxyState × List Effect :=
  match parse data with
  | none => (false, st, [])
  | some _ =>
    match getConnection probe dial st.fluentbitPool with
    | (none, pool1, effs1) =>
      (false,
       { st with fluentbitPool :=
          { pool1 with totalErrors := pool1.totalErrors + 1 } }, effs1)
    | (some conn, pool1, effs1) =>
      if writeOk then
        let pool2 := { pool1 with totalSent := pool1.totalSent + 1 }
        let pub := Publish parse subWriteOk data st.pubsub
        let ret := returnConnection conn pool2
        (true, ⟨ret.1, pub.1⟩,
         effs1 ++ [Effect.send conn data] ++ pub.2 ++ ret.2)
      else
        (false,
         { st with fluentbitPool :=
            { pool1 with activeConns := pool1.activeConns - 1,
                         totalErrors := pool1.totalErrors + 1 } },
         effs1 ++ [Effect.closeConn conn])

def w32 (x : Nat) : Nat := x % 4294967296

/-- Rotate a 32-bit word right by `n` (valid for `x < 2^32`). -/
def rotr32 (n x : Nat) : Nat := x / 2 ^ n + x % 2 ^ n * 2 ^ (32 - n)

def shaCh (x y z : Nat) : Nat := (x &&& y) ^^^ ((4294967295 - x) &&& z)

def shaMaj (x y z : Nat) : Nat := (x &&& y) ^^^ (x &&& z) ^^^ (y &&& z)

def bigSigma0 (x : Nat) : Nat := rotr32 2 x ^^^ rotr32 13 x ^^^ rotr32 22 x

def bigSigma1 (x : Nat) : Nat := rotr32 6 x ^^^ rotr32 11 x ^^^ rotr32 25 x

def smallSigma0 (x : Nat) : Nat := rotr32 7 x ^^^ rotr32 18 x ^^^ x / 2 ^ 3

def smallSigma1 (x : Nat) : Nat := rotr32 17 x ^^^ rotr32 19 x ^^^ x / 2 ^ 10

def sha256K : List Nat :=
  [1116352408, 1899447441, 3049323471, 3921009573, 961987163,
   1508970993, 2453635748, 2870763221, 3624381080, 310598401,
   607225278, 1426881987, 1925078388, 2162078206, 2614888103,
   3248222580, 3835390401, 4022224774, 264347078, 604807628,
   770255983, 1249150122, 1555081692, 1996064986, 2554220882,
   2821834349, 2952996808, 3210313671, 3336571891, 3584528711,
   113926993, 338241895, 666307205, 773529912, 1294757372,
   1396182291, 1695183700, 1986661051, 2177026350, 2456956037,
   2730485921, 2820302411, 3259730800, 3345764771, 3516065817,
   3600352804, 4094571909, 275423344, 430227734, 506948616,
   659060556, 883997877, 958139571, 1322822218, 1537002063,
   1747873779, 1955562222, 2024104815, 2227730452, 2361852424,
   2428436474, 2756734187, 3204031479, 3329325298]

def sha256H0 : List Nat :=
  [1779033703, 3144134277, 1013904242, 2773480762,
   1359893119, 2600822924, 528734635, 1541459225]

/-- Big-endian 32-bit words from a byte list (length a multiple of 4). -/
def bytesToWords : List Nat → List Nat
  | a :: b :: c :: d :: rest =>
    (((a * 256 + b) * 256 + c) * 256 + d) :: bytesToWords rest
  | _ => []

/-- Extend the 16 block words to the 64-entry message schedule. -/
def sha256Schedule (w16 : List Nat) : List Nat :=
  (List.range 48).foldl
    (fun w j =>
      let i := 16 + j
      let g := fun k => w.getD (i - k) 0
      w ++ [w32 (smallSigma1 (g 2) + g 7 + smallSigma0 (g 15) + g 16)])
    w16

/-- One compression round on the working variables `[a,b,c,d,e,f,g,h]`. -/
def sha256Round (st : List Nat) (kw : Nat × Nat) : List Nat :=
  match st with
  | [a, b, c, d, e, f, g, h] =>
    let t1 := w32 (h + bigSigma1 e + shaCh e f g + kw.1 + kw.2)
    let t2 := w32 (bigSigma0 a + shaMaj a b c)
    [w32 (t1 + t2), a, b, c, w32 (d + t1), e, f, g]
  | other => other

/-- Compress one 64-byte block into the running hash state. -/
def sha256Compress (h : List Nat) (block : List Nat) : List Nat :=
  let w := sha256Schedule (bytesToWords block)
  let st := (sha256K.zip w).foldl sha256Round h
  (h.zip st).map (fun p => w32 (p.1 + p.2))

/-- Big-endian 64-bit encoding of the bit length. -/
def be64 (n : Nat) : List Nat :=
  [n / 2 ^ 56 % 256, n / 2 ^ 48 % 256, n / 2 ^ 40 % 256, n / 2 ^ 32 % 256,
   n / 2 ^ 24 % 256, n / 2 ^ 16 % 256, n / 2 ^ 8 % 256, n % 256]

/-- Standard SHA-256 padding: `0x80`, zeros, 64-bit big-endian bit length. -/
def sha256Pad (msg : List Nat) : List Nat :=
  let L := msg.length
  msg ++ [0x80] ++ List.replicate ((64 - (L + 9) % 64) % 64) 0 ++ be64 (8 * L)

def chunks64 : List Nat → List (List Nat)
  | [] => []
  | a :: rest => ((a :: rest).take 64) :: chunks64 ((a :: rest).drop 64)
termination_by l => l.length
decreasing_by simp [List.length_drop]; omega

/-- The SHA-256 digest (32 bytes) of a byte list, as computed by Go's
`sha256.Sum256`. -/
def sha256 (msg : List Nat) : List Nat :=
  let final := (chunks64 (sha256Pad msg)).foldl sha256Compress sha256H0
  (final.map (fun w =>
    [w / 2 ^ 24 % 256, w / 2 ^ 16 % 256, w / 2 ^ 8 % 256, w % 256])).flatten

/-- UTF-8 bytes of one character (Go's `[]byte(string)` conversion). -/
def utf8EncodeChar (c : Char) : List Nat :=
  let n := c.toNat
  if n < 0x80 then [n]
  else if n < 0x800 then [0xC0 + n / 64, 0x80 + n % 64]
  else if n < 0x10000 then
    [0xE0 + n / 4096, 0x80 + n / 64 % 64, 0x80 + n % 64]
  else
    [0xF0 + n / 262144, 0x80 + n / 4096 % 64, 0x80 + n / 64 % 64,
     0x80 + n % 64]

def utf8Encode (s : Str) : List Nat := (s.map utf8EncodeChar).flatten

def hexDigit (n : Nat) : Char :=
  if n < 10 then Char.ofNat (48 + n) else Char.ofNat (87 + n)

/-- Lowercase hex of a byte list (Go `fmt.Sprintf "%x"`). -/
def hexBytes (bs : List Nat) : Str :=
  (bs.map (fun b => [hexDigit (b / 16), hexDigit (b % 16)])).flatten

/-- The replacement value for a sensitive variable:
`fmt.Sprintf("h8_%x", hash[:4])` of the SHA-256 of the value bytes. -/
def hashValue (value : Str) : Str :=
  "h8_".toList ++ hexBytes ((sha256 (utf8Encode value)).take 4)

/-! ### Environment filter (precmd-hook/env_config.go)

The regular expressions of the source are each translated to the predicate
they denote; `regexp.MatchString pat key` matches anywhere in `key`, so
`^X` patterns become "starts with", `^X$` patterns become equality,
unanchored patterns become substring tests, and `(?i)word` patterns become
ASCII-case-insensitive substring tests (every pattern in the source is plain
ASCII). Config-file-supplied patterns are modelled as the Boolean matchers
they compile to. -/

/-- Model of `strings.Contains`. -/
def strContains : Str → Str → Bool
  | [], pat => pat.isEmpty
  | c :: t, pat => pat.isPrefixOf (c :: t) || strContains t pat

def toLowerAscii (c : Char) : Char :=
  if 'A' ≤ c && c ≤ 'Z' then Char.ofNat (c.toNat + 32) else c

/-- Case-insensitive substring test: `regexp.MatchString ("(?i)" ++ pat) s`
for a plain ASCII literal `pat`. -/
def containsCI (s pat : Str) : Bool :=
  strContains (s.map toLowerAscii) (pat.map toLowerAscii)

/-- Matcher denoted by a `^[A-Z_]+<suffix>$` pattern. -/
def matchUpperSnake (suffix key : Str) : Bool :=
  suffix.isSuffixOf key && decide (suffix.length < key.length) &&
    (key.take (key.length - suffix.length)).all
      (fun c => ('A' ≤ c && c ≤ 'Z') || c == '_')

/-- The hard-wired `absoluteDenyPatterns` at the top of
`ShouldIncludeEnvVar`, each regex replaced by the predicate it denotes. -/
def absoluteDenyMatch (key : Str) : Bool :=
  "___PREEXEC_".toList.isPrefixOf key ||
  "__".toList.isPrefixOf key ||
  "BASH_FUNC_".toList.isPrefixOf key ||
  key == "_".toList ||
  ["PS1", "PS2", "PS3", "PS4"].any (fun p => key == p.toList) ||
  key == "TERM".toList ||
  key == "LINES".toList || key == "COLUMNS".toList ||
  "HIST".toList.isPrefixOf key ||
  key == "IFS".toList ||
  "OPT".toList.isPrefixOf key ||
  key == "RANDOM".toList || key == "SECONDS".toList ||
  "BASH_".toList.isPrefixOf key ||
  key == "FUNCNAME".toList || key == "PIPESTATUS".toList ||
  key == "REPLY".toList ||
  key == "SHELLOPTS".toList || key == "BASHOPTS".toList ||
  strContains key "TOTALRECALLROOT".toList

/-- The built-in `sensitivePatterns` list inside `ShouldIncludeEnvVar`
(all of the form `(?i)word`). -/
def builtinSensitiveWords : List String :=
  ["password", "secret", "key", "token", "auth", "credential", "private",
   "session", "cookie", "cert", "ssl", "tls", "oauth", "jwt", "bearer",
   "access", "refresh", "salt", "hash", "signature", "license", "serial",
   "url", "dsn", "connection", "endpoint"]

def builtinSensitiveMatch (key : Str) : Bool :=
  builtinSensitiveWords.any (fun w => containsCI key w.toList)

/-- Model of the `EnvConfig` struct: exact lists are kept as strings, regex
pattern lists as the matchers they compile to. -/
structure EnvConfig where
  allowlistExact : List Str
  allowlistPatterns : List (Str → Bool)
  denylistExact : List Str
  denylistPatterns : List (Str → Bool)
  hashSensitiveValues : Bool

/-- Model of `EnvConfig.ShouldIncludeEnvVar`, returning
`(include, shouldHash)`. The chain of early returns of the source becomes a
chain of conditionals: hard-wired absolute denies, user exact denies, the
allowlist gate, user sensitive patterns, then (when enabled) the built-in
sensitive patterns. The `value` argument is unused, as in the source. -/
def ShouldIncludeEnvVar (config : EnvConfig) (key _value : Str) : Bool × Bool :=
  if absoluteDenyMatch key then (false, false)
  else if config.denylistExact.any (fun d => d == key) then (false, false)
  else if !(config.allowlistExact.any (fun a => a == key) ||
            config.allowlistPatterns.any (fun p => p key)) then (false, false)
  else if config.denylistPatterns.any (fun p => p key) then (true, true)
  else if config.hashSensitiveValues && builtinSensitiveMatch key then
    (true, true)
  else (true, false)

/-- Model of `EnvConfig.FilterEnvironment`: the environment map is an
association list with distinct keys (Go map); kept entries are hashed or
passed through verbatim according to `ShouldIncludeEnvVar`. -/
def FilterEnvironment (config : EnvConfig) (env : List (Str × Str)) :
    List (Str × Str) :=
  env.filterMap (fun kv =>
    let r := ShouldIncludeEnvVar config kv.1 kv.2
    if r.1 then some (kv.1, if r.2 then hashValue kv.2 else kv.2) else none)

/-- Keys that must never appear in the output: the hard-wired absolute deny
patterns together with the config's exact denylist. -/
def absolutelyDenied (config : EnvConfig) (key : Str) : Bool :=
  absoluteDenyMatch key || config.denylistExact.any (fun d => d == key)

/-- Sensitivity patterns of a config: its denylist patterns together with the
built-in sensitive patterns. -/
def sensitiveMatch (config : EnvConfig) (key : Str) : Bool :=
  config.denylistPatterns.any (fun p => p key) || builtinSensitiveMatch key

def strs (l : List String) : List Str := l.map String.toList

/-- Model of `DefaultEnvConfig`, with each default regex translated to its
predicate. -/
def DefaultEnvConfig : EnvConfig where
  allowlistExact := strs
    ["PWD", "OLDPWD", "USER", "HOME", "SHELL", "LANG", "LC_ALL", "TZ",
     "EDITOR", "PAGER", "BROWSER", "TMPDIR", "XDG_CONFIG_HOME",
     "XDG_DATA_HOME", "XDG_CACHE_HOME", "NODE_ENV", "RAILS_ENV",
     "DJANGO_SETTINGS_MODULE", "FLASK_ENV", "ENVIRONMENT", "ENV", "STAGE",
     "DEPLOY_ENV", "RBENV_VERSION", "PYENV_VERSION", "NVM_CURRENT",
     "JAVA_HOME", "GOPATH", "GOROOT", "CARGO_HOME", "RUSTUP_HOME",
     "AWS_PROFILE", "AWS_REGION", "GOOGLE_CLOUD_PROJECT",
     "AZURE_RESOURCE_GROUP", "DOCKER_HOST", "KUBERNETES_NAMESPACE",
     "KUBECTL_CONTEXT", "CI", "GITHUB_ACTIONS", "JENKINS_URL", "GITLAB_CI",
     "TRAVIS", "CIRCLECI"]
  allowlistPatterns :=
    (strs ["_ENV", "_ENVIRONMENT", "_STAGE", "_PROFILE", "_NAMESPACE",
           "_CLUSTER", "_REGION", "_ZONE", "_BRANCH", "_VERSION", "_PATH",
           "_HOME", "_ROOT", "_CONFIG", "_URL", "_HOST", "_PORT",
           "_KEY"]).map matchUpperSnake ++
    (strs ["GIT_", "DOCKER_", "K8S_", "KUBE_", "HELM_",
           "TERRAFORM_"]).map (fun pre k => pre.isPrefixOf k)
  denylistExact := strs
    ["_", "PS1", "PS2", "PS3", "PS4", "TERM", "LINES", "COLUMNS",
     "HISTFILE", "HISTSIZE", "HISTCONTROL", "HISTTIMEFORMAT", "IFS",
     "OPTIND", "OPTARG", "OPTERR", "RANDOM", "SECONDS", "BASH_VERSINFO",
     "BASH_VERSION", "BASH_ARGC", "BASH_ARGV", "BASH_ARGV0", "BASH_COMMAND",
     "BASH_EXECUTION_STRING", "BASH_LINENO", "BASH_SOURCE", "BASH_SUBSHELL",
     "FUNCNAME", "BASH_REMATCH", "PIPESTATUS", "REPLY", "SHELLOPTS",
     "BASHOPTS", "TOTALRECALLROOT"]
  denylistPatterns :=
    (strs ["password", "secret", "key", "token", "auth", "credential",
           "private", "session", "cookie", "cert", "ssl", "tls", "oauth",
           "jwt", "bearer", "access", "refresh", "salt", "hash",
           "signature", "license", "serial"]).map (fun w k => containsCI k w)
  hashSensitiveValues := true

/-! ### Helper lemmas about the hub -/

theorem unsubscribe_totalSubs (id : Str) (hub : PubSubHub) :
    (Unsubscribe id hub).1.totalSubs = hub.totalSubs := by
  unfold Unsubscribe; split <;> rfl

theorem Unsubscribe_eq_of_none (id : Str) (hub : PubSubHub)
    (h : hub.subscribers.find? (fun s => s.id == id) = none) :
    Unsubscribe id hub = (hub, []) := by
  unfold Unsubscribe; rw [h]

theorem Unsubscribe_eq_of_some (id : Str) (hub : PubSubHub) (s : Subscriber)
    (h : hub.subscribers.find? (fun s => s.id == id) = some s) :
    Unsubscribe id hub =
      ({ hub with subscribers :=
          hub.subscribers.filter (fun t => !(t.id == id)) },
       [Effect.closeConn s.conn]) := by
  unfold Unsubscribe; rw [h]

/-- C9: `Unsubscribe` is idempotent on the hub state, and unsubscribing an
id that is not registered leaves the hub unchanged. -/
theorem unsubscribe_idempotent (hub : PubSubHub) (id : Str) :
    (Unsubscribe id (Unsubscribe id hub).1).1 = (Unsubscribe id hub).1 ∧
    (hub.subscribers.find? (fun s => s.id == id) = none →
      (Unsubscribe id hub).1 = hub) := by
  constructor
  · rcases hfind : hub.subscribers.find? (fun s => s.id == id) with _ | s
    · have h3 : (Unsubscribe id hub).1 = hub := by
        rw [Unsubscribe_eq_of_none id hub hfind]
      rw [h3, Unsubscribe_eq_of_none id hub hfind]
    · have h2 := Unsubscribe_eq_of_some id hub s hfind
      have hnone : (Unsubscribe id hub).1.subscribers.find?
          (fun s => s.id == id) = none := by
        rw [h2]
        simp only [List.find?_eq_none]
        intro x hx
        have := (List.mem_filter.mp hx).2
        simpa using this
      rw [Unsubscribe_eq_of_none id (Unsubscribe id hub).1 hnone]
  · intro hnone
    rw [Unsubscribe_eq_of_none id hub hnone]

theorem unsubscribe_idempotent_witness :
    (Unsubscribe "tui".toList ⟨[⟨"a".toList, 3, []⟩], 0, 1⟩).1 =
      (⟨[⟨"a".toList, 3, []⟩], 0, 1⟩ : PubSubHub) :=
  (unsubscribe_idempotent ⟨[⟨"a".toList, 3, []⟩], 0, 1⟩ "tui".toList).2
    (by decide)

/-! ### C1: ingestion publish vs. forward failure -/

/-- C1: `processFluentbitEvent` does not publish on forward failure. Both
failure paths are exhibited on a hub holding one empty-filter subscriber
(conn 7) and a record that parses. First conjunct: the pool has no idle
connection and the dial fails (downstream unreachable) — the handler returns
after bumping `totalErrors` (twice: once in `getConnection`, once at its call
site) with an empty effect trace and the hub untouched, so the record is
never published. Second conjunct: the dial succeeds (handle 44) but the 5 s
forward write fails — the handler closes the handle and returns, again
without publishing. The spec requires the bytes to be published to the hub
regardless of both outcomes. -/
theorem processFluentbitEvent_no_publish_on_forward_failure :
    processFluentbitEvent (fun _ => some []) (fun _ => true) none true
        (fun _ => true) "rec".toList
        ⟨NewConnectionPool "fb".toList 3, ⟨[⟨"tui".toList, 7, []⟩], 0, 1⟩⟩ =
      (false,
       ⟨⟨[], "fb".toList, 3, 0, 0, 2⟩, ⟨[⟨"tui".toList, 7, []⟩], 0, 1⟩⟩,
       []) ∧
    processFluentbitEvent (fun _ => some []) (fun _ => true) (some 44) false
        (fun _ => true) "rec".toList
        ⟨NewConnectionPool "fb".toList 3, ⟨[⟨"tui".toList, 7, []⟩], 0, 1⟩⟩ =
      (false,
       ⟨⟨[], "fb".toList, 3, 0, 0, 1⟩, ⟨[⟨"tui".toList, 7, []⟩], 0, 1⟩⟩,
       [Effect.closeConn 44]) := by
  decide

/-! ### C7: pool invariant -/

/-- Pool states reachable through the pool's operations, starting from
`NewConnectionPool` (the network outcomes of each step are arbitrary). -/
inductive PoolReachable : ConnectionPool → Prop where
  | init (targetAddr : Str) (poolSize : Nat) :
      PoolReachable (NewConnectionPool targetAddr poolSize)
  | stepGet (probe : Nat → Bool) (dial : Option Nat) (pool : ConnectionPool) :
      PoolReachable pool → PoolReachable (getConnection probe dial pool).2.1
  | stepReturn (conn : Nat) (pool : ConnectionPool) :
      PoolReachable pool → PoolReachable (returnConnection conn pool).1
  | stepProcess (parse : Str → Option Obj) (probe : Nat → Bool)
      (dial : Option Nat) (writeOk : Bool) (subWriteOk : Nat → Bool)
      (data : Str) (hub : PubSubHub) (pool : ConnectionPool) :
      PoolReachable pool →
      PoolReachable
        ((processFluentbitEvent parse probe dial writeOk subWriteOk data
          ⟨pool, hub⟩).2.1).fluentbitPool

theorem dialNewConnection_connections (dial : Option Nat)
    (pool : ConnectionPool) (effs : List Effect) :
    (dialNewConnection dial pool effs).2.1.connections = pool.connections ∧
    (dialNewConnection dial pool effs).2.1.poolSize = pool.poolSize := by
  cases dial <;> exact ⟨rfl, rfl⟩

theorem getConnection_inv (probe : Nat → Bool) (dial : Option Nat)
    (pool : ConnectionPool) (h : pool.connections.length ≤ pool.poolSize) :
    (getConnection probe dial pool).2.1.connections.length ≤
      (getConnection probe dial pool).2.1.poolSize ∧
    (getConnection probe dial pool).2.1.poolSize = pool.poolSize := by
  unfold getConnection
  rcases hc : pool.connections with _ | ⟨c, rest⟩
  · rcases dialNewConnection_connections dial pool [] with ⟨h1, h2⟩
    rw [h1, h2]; exact ⟨h, rfl⟩
  · by_cases hp : probe c
    · simp only [hp, if_true]
      refine ⟨?_, by trivial⟩
      have := h; rw [hc] at this
      simpa using Nat.le_of_succ_le this
    · simp only [hp, Bool.false_eq_true, if_false]
      rcases dialNewConnection_connections dial
        { pool with connections := rest,
                    activeConns := pool.activeConns - 1 }
        [Effect.closeConn c] with ⟨h1, h2⟩
      rw [h1, h2]
      refine ⟨?_, by trivial⟩
      have := h; rw [hc] at this
      simpa using Nat.le_of_succ_le this

theorem returnConnection_inv (conn : Nat) (pool : ConnectionPool)
    (h : pool.connections.length ≤ pool.poolSize) :
    (returnConnection conn pool).1.connections.length ≤
      (returnConnection conn pool).1.poolSize ∧
    (returnConnection conn pool).1.poolSize = pool.poolSize := by
  unfold returnConnection
  by_cases hlt : pool.connections.length < pool.poolSize
  · simp only [hlt, if_pos]
    exact ⟨by simpa using hlt, by trivial⟩
  · simp only [hlt, if_neg, not_false_eq_true]
    exact ⟨h, by trivial⟩

theorem processFluentbitEvent_pool_inv (parse : Str → Option Obj)
    (probe : Nat → Bool) (dial : Option Nat) (writeOk : Bool)
    (subWriteOk : Nat → Bool) (data : Str) (hub : PubSubHub)
    (pool : ConnectionPool) (h : pool.connections.length ≤ pool.poolSize) :
    ((processFluentbitEvent parse probe dial writeOk subWriteOk data
        ⟨pool, hub⟩).2.1).fluentbitPool.connections.length ≤
      ((processFluentbitEvent parse probe dial writeOk subWriteOk data
        ⟨pool, hub⟩).2.1).fluentbitPool.poolSize := by
  unfold processFluentbitEvent
  rcases parse data with _ | obj
  · exact h
  · rcases hget : getConnection probe dial pool with ⟨acq, pool1, effs1⟩
    have hinv := getConnection_inv probe dial pool h
    rw [hget] at hinv
    rcases acq with _ | conn
    · exact hinv.2 ▸ hinv.1
    · by_cases hw : writeOk
      · simp only [hw, if_true]
        have := returnConnection_inv conn
          { pool1 with totalSent := pool1.totalSent + 1 }
          (by simpa using hinv.2 ▸ hinv.1)
        exact this.2 ▸ this.1
      · simp only [hw, Bool.false_eq_true, if_false]
        exact hinv.2 ▸ hinv.1

/-- C7: in every reachable pool state the idle cache holds between 0 and
`poolSize` connections, and a release that finds the idle cache full closes
the connection and decrements the live count instead of caching it. -/
theorem pool_invariant :
    (∀ pool, PoolReachable pool →
      0 ≤ pool.connections.length ∧
      pool.connections.length ≤ pool.poolSize) ∧
    (∀ (pool : ConnectionPool) (conn : Nat),
      ¬ pool.connections.length < pool.poolSize →
      returnConnection conn pool =
        ({ pool with activeConns := pool.activeConns - 1 },
         [Effect.closeConn conn])) := by
  constructor
  · intro pool hreach
    refine ⟨Nat.zero_le _, ?_⟩
    induction hreach with
    | init targetAddr poolSize => exact Nat.le_refl 0 |>.trans (Nat.zero_le _)
    | stepGet probe dial pool hr ih => exact (getConnection_inv probe dial pool ih).1
    | stepReturn conn pool hr ih => exact (returnConnection_inv conn pool ih).1
    | stepProcess parse probe dial writeOk subWriteOk data hub pool hr ih =>
      exact processFluentbitEvent_pool_inv parse probe dial writeOk
        subWriteOk data hub pool ih
  · intro pool conn hfull
    unfold returnConnection
    simp only [hfull, if_neg, not_false_eq_true]

theorem pool_invariant_witness :
    ((NewConnectionPool "fb".toList 2).connections.length ≤ 2) ∧
    (returnConnection 9 ⟨[5], "fb".toList, 1, 1, 0, 0⟩ =
      (⟨[5], "fb".toList, 1, 0, 0, 0⟩, [Effect.closeConn 9])) :=
  ⟨(pool_invariant.1 _ (PoolReachable.init "fb".toList 2)).2,
   pool_invariant.2 ⟨[5], "fb".toList, 1, 1, 0, 0⟩ 9 (by decide)⟩

/-! ### C3: first-line reading is not bounded by the buffer -/

theorem readStringNewline_none_iff (input : Str) :
    readStringNewline input = none ↔ '\n' ∉ input := by
  induction input with
  | nil => simp [readStringNewline]
  | cons c rest ih =>
    by_cases hc : c = '\n'
    · subst hc; simp [readStringNewline]
    · simp [readStringNewline, hc, Option.map_eq_none', ih, Ne.symm hc]

theorem dropWhile_eq_self_of_forall (p : Char → Bool) (l : Str)
    (h : ∀ c ∈ l, p c = false) : l.dropWhile p = l := by
  cases l with
  | nil => rfl
  | cons c t =>
    rw [List.dropWhile_cons, h c (List.mem_cons_self c t)]
    simp

/-- Trimming a newline-terminated line whose body contains no whitespace
just strips the newline. -/
theorem trimSpace_append_newline (l : Str)
    (h : ∀ c ∈ l, goIsSpace c = false) :
    trimSpace (l ++ ['\n']) = l := by
  rcases l with _ | ⟨c, t⟩
  · decide
  · unfold trimSpace
    have hc : goIsSpace c = false := h c (List.mem_cons_self c t)
    rw [List.cons_append, List.dropWhile_cons, hc]
    simp only [Bool.false_eq_true, if_false]
    rw [show (c :: (t ++ ['\n'])) = (c :: t) ++ ['\n'] from rfl]
    rw [show ((c :: t) ++ ['\n']).reverse = '\n' :: (c :: t).reverse from by
      rw [List.reverse_append, List.reverse_singleton, List.singleton_append]]
    rw [List.dropWhile_cons, show goIsSpace '\n' = true from rfl]
    simp only [if_true]
    rw [dropWhile_eq_self_of_forall goIsSpace ((c :: t).reverse)
      (fun x hx => h x (List.mem_reverse.mp hx)), List.reverse_reverse]

theorem readStringNewline_no_nl_append (pre rest : Str)
    (h : '\n' ∉ pre) :
    readStringNewline (pre ++ '\n' :: rest) = some (pre ++ ['\n'], rest) := by
  induction pre with
  | nil => simp [readStringNewline]
  | cons c t ih =>
    have hc : c ≠ '\n' := fun hh => h (hh ▸ List.mem_cons_self c t)
    have ht : '\n' ∉ t := fun hh => h (List.mem_cons_of_mem c hh)
    simp [readStringNewline, hc, ih ht]

/-- C3 counterexample: a first line of 4097 bytes — longer than the default
4096-byte `bufio.Reader` buffer — terminated by a newline is read in full by
`ReadString` (which accumulates across buffer refills) and dispatched to the
ingestion handler; it is not rejected and the connection is not closed. -/
theorem firstline_long_counterexample :
    bufioReaderDefaultBufSize < (List.replicate 4097 'a').length ∧
    handleClientFirstLine (List.replicate 4097 'a' ++ ['\n']) =
      .dispatched (.ingestion (List.replicate 4097 'a')) := by
  constructor
  · rw [List.length_replicate]; decide
  · have hnonspace : ∀ c ∈ List.replicate 4097 'a', goIsSpace c = false := by
      intro c hmem
      rw [List.eq_of_mem_replicate hmem]
      decide
    have hnl : '\n' ∉ List.replicate 4097 'a' := by
      intro hmem
      have := List.eq_of_mem_replicate hmem
      simp at this
    have hread := readStringNewline_no_nl_append (List.replicate 4097 'a') []
      hnl
    have htrim := trimSpace_append_newline (List.replicate 4097 'a') hnonspace
    have hrep : List.replicate 4097 'a' = 'a' :: List.replicate 4096 'a' := by
      rw [show (4097 : Nat) = 4096 + 1 from rfl, List.replicate_succ]
    have hclass : classify (List.replicate 4097 'a' ++ ['\n']) =
        .ingestion (List.replicate 4097 'a') := by
      have h1 : isHTTPRequest (List.replicate 4097 'a') = false := by
        rw [hrep]; decide
      have h2 : "SUBSCRIBE".toList.isPrefixOf
          (List.replicate 4097 'a') = false := by
        rw [hrep]; decide
      unfold classify
      rw [htrim]
      simp only [h1, h2, Bool.false_eq_true, if_false]
    unfold handleClientFirstLine
    rw [hread]
    show FirstLineOutcome.dispatched
        (classify (List.replicate 4097 'a' ++ ['\n'])) =
      FirstLineOutcome.dispatched (.ingestion (List.replicate 4097 'a'))
    rw [hclass]

/-- C3 amended: the first-line read is not bounded in length — a first line
is dispatched whenever a newline arrives, whatever its length, and the
connection is closed without dispatch exactly when the stream ends before
any newline. -/
theorem firstline_closed_iff_no_newline (input : Str) :
    handleClientFirstLine input = .closedNoDispatch ↔ '\n' ∉ input := by
  unfold handleClientFirstLine
  rcases hr : readStringNewline input with _ | ⟨line, rest⟩
  · simpa [hr] using (readStringNewline_none_iff input).mp hr
  · have : readStringNewline input ≠ none := by rw [hr]; simp
    have hmem : '\n' ∈ input := by
      by_contra hnot
      exact this ((readStringNewline_none_iff input).mpr hnot)
    simp [hmem]

theorem firstline_closed_iff_no_newline_witness :
    handleClientFirstLine "abc".toList = .closedNoDispatch :=
  (firstline_closed_iff_no_newline "abc".toList).mpr (by decide)

/-! ### C4: per-record errors never stop the ingestion loop -/

/-- The three dispatch outcomes, without handler payloads. -/
inductive RouteKind where
  | requestProxy
  | subscriber
  | ingestion
deriving DecidableEq, Repr

def routeKind : Route → RouteKind
  | .requestProxy _ => .requestProxy
  | .subscriber _ _ => .subscriber
  | .ingestion _ => .ingestion

/-- The request verbs named by the spec. -/
def requestVerbs : List Str :=
  ["GET", "POST", "PUT", "DELETE", "HEAD", "OPTIONS", "PATCH"].map
    String.toList

/-- First whitespace-delimited token of a line. -/
def firstToken (l : Str) : Str := l.takeWhile (fun c => !goIsSpace c)

/-- The character right after the first token exists and is whitespace. -/
def afterTokenIsWhitespace (l : Str) : Bool :=
  match l.get? (firstToken l).length with
  | some c => goIsSpace c
  | none => false

/-- The character right after the first token is exactly a space. -/
def afterTokenIsSpace (l : Str) : Bool :=
  l.get? (firstToken l).length == some ' '

/-- Classifier as the claim words it (refinement side, spec wording): first
token is a request verb followed by whitespace → request-proxy; line begins
with the literal `SUBSCRIBE` → subscriber; otherwise ingestion. -/
def classifySpecWhitespaceC5 (rawFirstLine : Str) : RouteKind :=
  let l := trimSpace rawFirstLine
  if requestVerbs.any (fun v => firstToken l == v) && afterTokenIsWhitespace l
  then .requestProxy
  else if "SUBSCRIBE".toList.isPrefixOf l then .subscriber
  else .ingestion

/-- The amended spec-side classifier: the verb must be followed by a space
character, not arbitrary whitespace. -/
def classifySpecSpaceC5 (rawFirstLine : Str) : RouteKind :=
  let l := trimSpace rawFirstLine
  if requestVerbs.any (fun v => firstToken l == v) && afterTokenIsSpace l
  then .requestProxy
  else if "SUBSCRIBE".toList.isPrefixOf l then .subscriber
  else .ingestion

/-- C5 counterexample: on the line `GET<TAB>/x HTTP/1.1` the first token is
the verb `GET` followed by whitespace (a tab), so the claimed rule picks
request-proxy, but the code checks for the literal `"GET "` and dispatches
the line to the ingestion handler. -/
theorem classify_whitespace_counterexample :
    routeKind (classify "GET\t/x HTTP/1.1".toList) = RouteKind.ingestion ∧
    classifySpecWhitespaceC5 "GET\t/x HTTP/1.1".toList =
      RouteKind.requestProxy := by
  decide

theorem prefixOf_verb_space_iff (v : Str)
    (hv : ∀ c ∈ v, goIsSpace c = false) :
    ∀ l : Str, (v ++ [' ']) <+: l ↔
      (firstToken l = v ∧ l.get? v.length = some ' ') := by
  induction v with
  | nil =>
    intro l
    cases l with
    | nil => simp [firstToken]
    | cons c t =>
      by_cases hc : c = ' '
      · subst hc
        simp [List.cons_prefix_cons, firstToken, List.takeWhile_cons,
          goIsSpace]
      · by_cases hs : goIsSpace c
        · simp [List.cons_prefix_cons, firstToken, List.takeWhile_cons, hs,
            hc, Ne.symm hc]
        · simp [List.cons_prefix_cons, firstToken, List.takeWhile_cons, hs,
            hc, Ne.symm hc]
  | cons a v' ih =>
    intro l
    have ha : goIsSpace a = false := hv a (List.mem_cons_self a v')
    have hv' : ∀ c ∈ v', goIsSpace c = false :=
      fun c hc => hv c (List.mem_cons_of_mem a hc)
    cases l with
    | nil => simp [firstToken]
    | cons c t =>
      by_cases hs : goIsSpace c
      · have hne : a ≠ c := by
          intro he; rw [he] at ha; rw [ha] at hs; exact Bool.false_ne_true hs
        simp [List.cons_prefix_cons, firstToken, List.takeWhile_cons, hs, hne]
      · simp only [List.cons_append, List.cons_prefix_cons, ih hv' t,
          firstToken, List.takeWhile_cons, hs, Bool.not_false, if_true,
          List.length_cons, List.get?_cons_succ, List.cons.injEq]
        constructor
        · rintro ⟨rfl, h1, h2⟩
          exact ⟨⟨rfl, h1⟩, h2⟩
        · rintro ⟨⟨h0, h1⟩, h2⟩
          exact ⟨h0.symm, h1, h2⟩

theorem token_len_switch (l v : Str) :
    ((firstToken l = v ∧ l.get? v.length = some ' ') ↔
      (firstToken l = v ∧ afterTokenIsSpace l = true)) := by
  unfold afterTokenIsSpace
  constructor
  · rintro ⟨h1, h2⟩
    exact ⟨h1, by rw [h1]; simpa using h2⟩
  · rintro ⟨h1, h2⟩
    rw [h1] at h2
    exact ⟨h1, by simpa using h2⟩

theorem isHTTPRequest_eq_spec (l : Str) :
    isHTTPRequest l =
      (requestVerbs.any (fun v => firstToken l == v) &&
        afterTokenIsSpace l) := by
  rw [Bool.eq_iff_iff]
  have expand : isHTTPRequest l = true ↔
      (("GET".toList ++ [' ']) <+: l ∨
       ("POST".toList ++ [' ']) <+: l ∨
       ("PUT".toList ++ [' ']) <+: l ∨
       ("DELETE".toList ++ [' ']) <+: l ∨
       ("HEAD".toList ++ [' ']) <+: l ∨
       ("OPTIONS".toList ++ [' ']) <+: l ∨
       ("PATCH".toList ++ [' ']) <+: l) := by
    unfold isHTTPRequest httpMethods
    simp [List.any_cons]
  rw [expand,
    prefixOf_verb_space_iff "GET".toList (by decide) l,
    prefixOf_verb_space_iff "POST".toList (by decide) l,
    prefixOf_verb_space_iff "PUT".toList (by decide) l,
    prefixOf_verb_space_iff "DELETE".toList (by decide) l,
    prefixOf_verb_space_iff "HEAD".toList (by decide) l,
    prefixOf_verb_space_iff "OPTIONS".toList (by decide) l,
    prefixOf_verb_space_iff "PATCH".toList (by decide) l,
    token_len_switch l "GET".toList,
    token_len_switch l "POST".toList,
    token_len_switch l "PUT".toList,
    token_len_switch l "DELETE".toList,
    token_len_switch l "HEAD".toList,
    token_len_switch l "OPTIONS".toList,
    token_len_switch l "PATCH".toList]
  unfold requestVerbs
  simp only [List.map_cons, List.map_nil, List.any_cons, List.any_nil,
    Bool.and_eq_true, Bool.or_eq_true, beq_iff_eq]
  by_cases hsp : afterTokenIsSpace l = true <;> simp [hsp]

/-- C5 amended: classification is a pure function of the (trimmed) first
line with exactly the three claimed outcomes, where a request verb must be
followed by a space character (the code checks the literal `"GET "` …
`"PATCH "` prefixes); lines beginning with `SUBSCRIBE` go to the subscriber
handler, and every other line goes to the ingestion handler carrying the
trimmed line as the first event. -/
theorem classify_matches_spec (rawFirstLine : Str) :
    routeKind (classify rawFirstLine) = classifySpecSpaceC5 rawFirstLine ∧
    (∀ x, classify rawFirstLine = .ingestion x →
      x = trimSpace rawFirstLine) := by
  constructor
  · simp only [classify, classifySpecSpaceC5]
    rw [isHTTPRequest_eq_spec]
    by_cases hH : (requestVerbs.any
        (fun v => firstToken (trimSpace rawFirstLine) == v) &&
        afterTokenIsSpace (trimSpace rawFirstLine)) = true
    · rw [if_pos hH, if_pos hH]; rfl
    · rw [if_neg hH, if_neg hH]
      by_cases hS : ("SUBSCRIBE".toList.isPrefixOf
          (trimSpace rawFirstLine)) = true
      · rw [if_pos hS, if_pos hS]; rfl
      · rw [if_neg hS, if_neg hS]; rfl
  · intro x hx
    simp only [classify] at hx
    split at hx
    · exact Route.noConfusion hx
    · split at hx
      · exact Route.noConfusion hx
      · exact (Route.ingestion.inj hx).symm

theorem classify_matches_spec_witness :
    "eventline".toList = trimSpace "eventline".toList :=
  (classify_matches_spec "eventline".toList).2 "eventline".toList (by decide)

/-! ### C6: subscriber ids are a single-holder resource -/

/-- Apply a sequence of subscribe operations `(id, conn, filter)`. -/
def applySubscribes (ops : List (Str × Nat × List (Str × Str)))
    (hub : PubSubHub) : PubSubHub :=
  ops.foldl (fun h op => (Subscribe op.1 op.2.1 op.2.2 h).1) hub

/-- The connection and filter of the last subscribe with a given id. -/
def lastSubscribe (ops : List (Str × Nat × List (Str × Str))) (id : Str) :
    Option (Nat × List (Str × Str)) :=
  ((ops.filter (fun op => op.1 == id)).getLast?).map (fun op => op.2)

theorem Subscribe_subscribers (id : Str) (conn : Nat)
    (filter : List (Str × Str)) (hub : PubSubHub) :
    (Subscribe id conn filter hub).1.subscribers =
      hubInsert ⟨id, conn, filter⟩ hub.subscribers := rfl

theorem Subscribe_effects_of_some (id : Str) (conn : Nat)
    (filter : List (Str × Str)) (hub : PubSubHub) (old : Subscriber)
    (h : hub.subscribers.find? (fun s => s.id == id) = some old) :
    (Subscribe id conn filter hub).2 = [Effect.closeConn old.conn] := by
  simp only [Subscribe, h]

theorem find?_map_replace (s : Subscriber) (l : List Subscriber) :
    (l.map (fun t => if t.id == s.id then s else t)).find?
        (fun t => t.id == s.id) =
      if l.any (fun t => t.id == s.id) then some s else none := by
  induction l with
  | nil => rfl
  | cons h t ih =>
    rw [List.map_cons]
    by_cases hh : h.id = s.id
    · have hb : (h.id == s.id) = true := beq_iff_eq.mpr hh
      rw [if_pos hb,
        @List.find?_cons_of_pos _ (fun t => t.id == s.id) s _ (by simp)]
      simp [List.any_cons, hb]
    · have hb : (h.id == s.id) = false := beq_eq_false_iff_ne.mpr hh
      rw [if_neg (by simp [hb]),
        @List.find?_cons_of_neg _ (fun t => t.id == s.id) h _ (by simp [hb]),
        ih]
      simp [List.any_cons, hb]

theorem find?_append_single (s : Subscriber) (p : Subscriber → Bool)
    (hp : p s = true) :
    ∀ l : List Subscriber, l.any p = false → (l ++ [s]).find? p = some s := by
  intro l
  induction l with
  | nil => intro _; simp [List.find?, hp]
  | cons h t ih =>
    intro hany
    simp only [List.any_cons, Bool.or_eq_false_iff] at hany
    simp [List.find?, hany.1, ih hany.2]

theorem hubInsert_find_self (s : Subscriber) (l : List Subscriber) :
    (hubInsert s l).find? (fun t => t.id == s.id) = some s := by
  unfold hubInsert
  by_cases ha : (l.any (fun t => t.id == s.id)) = true
  · rw [if_pos ha, find?_map_replace s l, if_pos ha]
  · rw [if_neg ha]
    exact find?_append_single s _ (by simp) l (by simpa using ha)

theorem find?_map_replace_other (s : Subscriber) (id : Str)
    (hne : s.id ≠ id) (l : List Subscriber) :
    (l.map (fun t => if t.id == s.id then s else t)).find?
        (fun t => t.id == id) =
      l.find? (fun t => t.id == id) := by
  induction l with
  | nil => rfl
  | cons h t ih =>
    rw [List.map_cons]
    by_cases hh : h.id = s.id
    · have hb : (h.id == s.id) = true := beq_iff_eq.mpr hh
      have hsid : (s.id == id) = false := beq_eq_false_iff_ne.mpr hne
      have hhid : (h.id == id) = false :=
        beq_eq_false_iff_ne.mpr (by rw [hh]; exact hne)
      rw [if_pos hb,
        @List.find?_cons_of_neg _ (fun t => t.id == id) s _ (by simp [hsid]),
        @List.find?_cons_of_neg _ (fun t => t.id == id) h _ (by simp [hhid])]
      exact ih
    · have hb : (h.id == s.id) = false := beq_eq_false_iff_ne.mpr hh
      rw [if_neg (by simp [hb])]
      by_cases hp : h.id = id
      · have hpb : (h.id == id) = true := beq_iff_eq.mpr hp
        rw [@List.find?_cons_of_pos _ (fun t => t.id == id) h _ hpb,
          @List.find?_cons_of_pos _ (fun t => t.id == id) h _ hpb]
      · have hpb : (h.id == id) = false := beq_eq_false_iff_ne.mpr hp
        rw [@List.find?_cons_of_neg _ (fun t => t.id == id) h _
            (by simp [hpb]),
          @List.find?_cons_of_neg _ (fun t => t.id == id) h _
            (by simp [hpb])]
        exact ih

theorem hubInsert_find_other (s : Subscriber) (id : Str) (hne : s.id ≠ id)
    (l : List Subscriber) :
    (hubInsert s l).find? (fun t => t.id == id) =
      l.find? (fun t => t.id == id) := by
  unfold hubInsert
  by_cases ha : (l.any (fun t => t.id == s.id)) = true
  · rw [if_pos ha]; exact find?_map_replace_other s id hne l
  · rw [if_neg ha]
    have hs : ((fun t : Subscriber => t.id == id) s) = false :=
      beq_eq_false_iff_ne.mpr hne
    rcases hf : l.find? (fun t => t.id == id) with _ | x
    · rw [List.find?_append, hf]
      simp [List.find?, hs]
    · rw [List.find?_append, hf]
      rfl

/-- Number of entries of the subscriber list holding a given id. -/
def countId (id : Str) (l : List Subscriber) : Nat :=
  l.countP (fun t => t.id == id)

theorem countId_hubInsert (s : Subscriber) (id : Str) (l : List Subscriber)
    (h : countId id l ≤ 1) : countId id (hubInsert s l) ≤ 1 := by
  unfold hubInsert countId at *
  by_cases ha : (l.any (fun t => t.id == s.id)) = true
  · rw [if_pos ha, List.countP_map]
    by_cases hsid : s.id = id
    · calc l.countP ((fun t : Subscriber => t.id == id) ∘
            fun t => if t.id == s.id then s else t)
          = l.countP (fun t => t.id == id) := by
            apply List.countP_congr
            intro t _
            by_cases ht : (t.id == s.id) = true
            · have : t.id = s.id := eq_of_beq ht
              simp [Function.comp, ht, this, hsid]
            · simp only [Bool.not_eq_true] at ht
              simp [Function.comp, ht]
        _ ≤ 1 := h
    · calc l.countP ((fun t : Subscriber => t.id == id) ∘
            fun t => if t.id == s.id then s else t)
          ≤ l.countP (fun t => t.id == id) := by
            apply List.countP_mono_left
            intro t _ hp
            by_cases ht : (t.id == s.id) = true
            · rw [Function.comp] at hp
              simp only [ht, if_true] at hp
              exact absurd (eq_of_beq hp) hsid
            · simp only [Bool.not_eq_true] at ht
              rw [Function.comp] at hp
              simpa [ht] using hp
        _ ≤ 1 := h
  · rw [if_neg ha, List.countP_append]
    have hzero : ∀ t ∈ l, ¬((fun t : Subscriber => t.id == s.id) t = true) :=
      by simpa [List.any_eq_true] using ha
    by_cases hsid : s.id = id
    · have hl0 : l.countP (fun t => t.id == id) = 0 := by
        rw [List.countP_eq_zero]
        intro t ht
        rw [← hsid]
        exact hzero t ht
      simp [hl0, List.countP_cons, hsid]
    · have hs : ((fun t : Subscriber => t.id == id) s) = false :=
        beq_eq_false_iff_ne.mpr hsid
      calc l.countP (fun t => t.id == id) +
            List.countP (fun t => t.id == id) [s]
          = l.countP (fun t => t.id == id) := by
            simp [List.countP_cons, hs]
        _ ≤ 1 := h

theorem applySubscribes_countId (id : Str) :
    ∀ (ops : List (Str × Nat × List (Str × Str))) (hub : PubSubHub),
      countId id hub.subscribers ≤ 1 →
      countId id (applySubscribes ops hub).subscribers ≤ 1 := by
  intro ops
  induction ops with
  | nil => intro hub h; exact h
  | cons op rest ih =>
    intro hub h
    exact ih _ (by
      rw [Subscribe_subscribers]
      exact countId_hubInsert _ id _ h)

theorem applySubscribes_last (id : Str) :
    ∀ (ops : List (Str × Nat × List (Str × Str))) (hub : PubSubHub)
      (conn : Nat) (filter : List (Str × Str)),
      lastSubscribe ops id = some (conn, filter) →
      (applySubscribes ops hub).subscribers.find? (fun s => s.id == id) =
        some ⟨id, conn, filter⟩ := by
  intro ops
  induction ops using List.reverseRecOn with
  | nil => intro hub conn filter h; simp [lastSubscribe] at h
  | append_singleton rest op ih =>
    intro hub conn filter h
    have happ : applySubscribes (rest ++ [op]) hub =
        (Subscribe op.1 op.2.1 op.2.2 (applySubscribes rest hub)).1 := by
      simp [applySubscribes, List.foldl_append]
    by_cases hop : (op.1 == id) = true
    · have hope : op.1 = id := eq_of_beq hop
      have hlast : lastSubscribe (rest ++ [op]) id = some op.2 := by
        unfold lastSubscribe
        rw [List.filter_append]
        simp [hop, List.getLast?_concat]
      rw [hlast] at h
      have hpair : op.2 = (conn, filter) := by
        injection h with h'
      rw [happ, Subscribe_subscribers, hope, hpair]
      simpa using hubInsert_find_self ⟨id, conn, filter⟩
        (applySubscribes rest hub).subscribers
    · have hlast : lastSubscribe (rest ++ [op]) id = lastSubscribe rest id := by
        unfold lastSubscribe
        rw [List.filter_append]
        simp only [Bool.not_eq_true] at hop
        simp [hop]
      rw [hlast] at h
      rw [happ, Subscribe_subscribers]
      rw [hubInsert_find_other ⟨op.1, op.2.1, op.2.2⟩ id
        (by simpa using fun he => (by simp [he] at hop : False)) _]
      exact ih hub conn filter h

/-- C6: subscriber ids are a single-holder resource. Subscribing over an
existing id first closes the old sink and replaces the entry with the new
subscriber (conjuncts 1 and 2), and after any sequence of subscribes on a
fresh hub at most one subscriber holds any given id (conjunct 3) and the
entry for an id is the one supplied by the most recent subscribe with that
id (conjunct 4). -/
theorem subscribe_single_holder :
    (∀ (hub : PubSubHub) (id : Str) (conn : Nat)
        (filter : List (Str × Str)) (old : Subscriber),
      hub.subscribers.find? (fun s => s.id == id) = some old →
      (Subscribe id conn filter hub).2 = [Effect.closeConn old.conn]) ∧
    (∀ (hub : PubSubHub) (id : Str) (conn : Nat)
        (filter : List (Str × Str)),
      (Subscribe id conn filter hub).1.subscribers.find?
        (fun s => s.id == id) = some ⟨id, conn, filter⟩) ∧
    (∀ (ops : List (Str × Nat × List (Str × Str))) (id : Str),
      countId id (applySubscribes ops NewPubSubHub).subscribers ≤ 1) ∧
    (∀ (ops : List (Str × Nat × List (Str × Str))) (id : Str) (conn : Nat)
        (filter : List (Str × Str)),
      lastSubscribe ops id = some (conn, filter) →
      (applySubscribes ops NewPubSubHub).subscribers.find?
        (fun s => s.id == id) = some ⟨id, conn, filter⟩) := by
  refine ⟨fun hub id conn filter old h =>
    Subscribe_effects_of_some id conn filter hub old h, ?_, ?_, ?_⟩
  · intro hub id conn filter
    rw [Subscribe_subscribers]
    exact hubInsert_find_self ⟨id, conn, filter⟩ hub.subscribers
  · intro ops id
    exact applySubscribes_countId id ops NewPubSubHub (by simp [countId,
      NewPubSubHub])
  · intro ops id conn filter h
    exact applySubscribes_last id ops NewPubSubHub conn filter h

theorem subscribe_single_holder_witness :
    (Subscribe "tui".toList 9 [] ⟨[⟨"tui".toList, 7, []⟩], 0, 1⟩).2 =
      [Effect.closeConn 7] :=
  subscribe_single_holder.1 ⟨[⟨"tui".toList, 7, []⟩], 0, 1⟩ "tui".toList 9 []
    ⟨"tui".toList, 7, []⟩ (by decide)

/-! ### C8: the environment filter -/

theorem shouldInclude_spec (config : EnvConfig) (key value : Str)
    (hcfg : config.hashSensitiveValues = true)
    (h : (ShouldIncludeEnvVar config key value).1 = true) :
    absolutelyDenied config key = false ∧
    (ShouldIncludeEnvVar config key value).2 = sensitiveMatch config key := by
  unfold ShouldIncludeEnvVar at h
  by_cases h1 : absoluteDenyMatch key = true
  · rw [if_pos h1] at h; exact absurd h (by simp)
  rw [if_neg h1] at h
  by_cases h2 : (config.denylistExact.any (fun d => d == key)) = true
  · rw [if_pos h2] at h; exact absurd h (by simp)
  rw [if_neg h2] at h
  have habs : absolutelyDenied config key = false := by
    unfold absolutelyDenied
    rw [Bool.or_eq_false_iff]
    exact ⟨Bool.eq_false_iff.mpr h1, Bool.eq_false_iff.mpr h2⟩
  refine ⟨habs, ?_⟩
  unfold ShouldIncludeEnvVar sensitiveMatch
  rw [if_neg h1, if_neg h2]
  by_cases h3 : (!(config.allowlistExact.any (fun a => a == key) ||
      config.allowlistPatterns.any (fun p => p key))) = true
  · rw [if_pos h3] at h; exact absurd h (by simp)
  rw [if_neg h3] at h
  rw [if_neg h3]
  by_cases h4 : (config.denylistPatterns.any (fun p => p key)) = true
  · rw [if_pos h4]; simp [h4]
  rw [if_neg h4]
  by_cases h5 : (config.hashSensitiveValues && builtinSensitiveMatch key) = true
  · rw [if_pos h5]
    have hb : builtinSensitiveMatch key = true := by
      rw [hcfg] at h5; simpa using h5
    simp [h4, hb]
  · rw [if_neg h5]
    have hb : builtinSensitiveMatch key = false := by
      rw [hcfg] at h5; simpa using h5
    simp [h4, hb]

/-- C8: every entry of the filter output comes from an input entry whose key
is not absolutely denied (neither by the hard-wired deny patterns nor the
config's exact denylist); a retained key matching a sensitivity pattern has
its value replaced by `h8_` followed by the lowercase hex of the first four
bytes of the SHA-256 of the original value, and every other retained key
keeps its value verbatim. (Stated for configurations with value hashing
enabled, as in the producer's default configuration.) -/
theorem filterEnvironment_spec (config : EnvConfig)
    (env : List (Str × Str)) (key v' : Str)
    (hcfg : config.hashSensitiveValues = true)
    (hmem : (key, v') ∈ FilterEnvironment config env) :
    absolutelyDenied config key = false ∧
    ∃ v, (key, v) ∈ env ∧
      v' = (if sensitiveMatch config key then hashValue v else v) := by
  unfold FilterEnvironment at hmem
  rw [List.mem_filterMap] at hmem
  obtain ⟨kv, hkv, heq⟩ := hmem
  simp only at heq
  by_cases hinc : (ShouldIncludeEnvVar config kv.1 kv.2).1 = true
  · rw [if_pos hinc] at heq
    have heq' := Option.some.inj heq
    have hk : kv.1 = key := congrArg Prod.fst heq'
    have hv : (if (ShouldIncludeEnvVar config kv.1 kv.2).2 then
        hashValue kv.2 else kv.2) = v' := congrArg Prod.snd heq'
    rcases shouldInclude_spec config kv.1 kv.2 hcfg hinc with ⟨habs, hsens⟩
    rw [hk] at habs
    refine ⟨habs, kv.2, ?_, ?_⟩
    · rw [← hk]; simpa using hkv
    · rw [← hv, hsens, hk]
  · rw [if_neg hinc] at heq
    exact absurd heq (by simp)

theorem filterEnvironment_spec_witness :
    absolutelyDenied DefaultEnvConfig "USER".toList = false ∧
    ∃ v, ("USER".toList, v) ∈ [("USER".toList, "alice".toList)] ∧
      "alice".toList =
        (if sensitiveMatch DefaultEnvConfig "USER".toList then hashValue v
         else v) :=
  filterEnvironment_spec DefaultEnvConfig
    [("USER".toList, "alice".toList)] "USER".toList "alice".toList rfl
    (by decide)

end TotalRecall
